import Mathlib

/-!
Verification of the `safe_ptr` repository (src/main.cpp): a generic
thread-safe wrapper (`safe_ptr`) and an execute-around wrapper
(`execute_around`), both of which guard a shared value with a
`std::recursive_mutex` and expose it only through RAII accessor objects
that acquire the lock on construction and release it on destruction.

The development shallowly embeds the parts of the code the claims are
about:

* the shared `std::map<std::string, std::pair<std::string,int>>` payload
  of `safe_map_strings_global` together with the atomic (lock-protected)
  operations `func` performs on it, and arbitrary interleavings of the
  ten worker threads started by `test_safe_ptr`;
* the `std::recursive_mutex` / `std::unique_lock` pair and the lifecycle
  of the accessor types (`execute_around::proxy`, `safe_ptr::auto_lock_t`,
  `safe_ptr::auto_lock_obj_t`);
* heap-allocated shared ownership (`std::shared_ptr` via `make_shared`)
  used by both wrapper classes, to settle the aliasing claims.
-/

/-! ## The wrapped map payload and the atomic operations of `func`

Each statement of `func` touches the shared map while holding the
wrapper's recursive mutex for the whole full-expression (the temporary
accessor lives to the end of the statement), so each statement is one
atomic operation on the shared map.  `Op` lists the mutating statements
of `func` (src/main.cpp lines 107-113). -/

/-- One lock-protected mutating statement of `func`:
* `setFirst k v` models `(*safe_map_strings)["k"].first = v` —
  `std::map::operator[]` value-initializes and inserts a `("", 0)` entry
  when the key is absent, then `.first` is assigned;
* `incAt k` models `safe_map_strings->at(k).second++`
  (`std::map::at` throws when the key is absent);
* `incFind k` models `safe_map_strings->find(k)->second.second++`
  (dereferencing the `end()` iterator when the key is absent is not a
  defined behaviour, so the model makes absence a failure as for `at`). -/
inductive Op where
  | setFirst (k v : String)
  | incAt (k : String)
  | incFind (k : String)
deriving DecidableEq, Repr

/-- The state of the wrapped `std::map<std::string, std::pair<std::string,int>>`:
a partial assignment of `(first, second)` pairs to keys. -/
def MapState : Type := String → Option (String × Int)

/-- The freshly default-constructed map of `safe_map_strings_global`. -/
def emptyMap : MapState := fun _ => none

/-- Store pair `v` at key `k` (the effect of writing through a reference
returned by `operator[]`, `at` or `find`). -/
def setKey (m : MapState) (k : String) (v : String × Int) : MapState :=
  fun k' => if k' = k then some v else m k'

/-- Execute one atomic statement of `func` on the shared map.  `none`
models the statement failing (an `at` throw / an invalid `find`
dereference), which never happens in the real runs. -/
def applyOp (m : MapState) : Op → Option MapState
  | .setFirst k v =>
      some (setKey m k (v, ((m k).getD ("", 0)).2))
  | .incAt k =>
      match m k with
      | none => none
      | some (f, c) => some (setKey m k (f, c + 1))
  | .incFind k =>
      match m k with
      | none => none
      | some (f, c) => some (setKey m k (f, c + 1))

/-- Run a serialized sequence of atomic statements on the map. -/
def run : MapState → List Op → Option MapState
  | m, [] => some m
  | m, op :: l =>
      match applyOp m op with
      | none => none
      | some m' => run m' l

/-- The body of the `for` loop of `func`, iterated `n` times: each
iteration increments `apple`\'s counter via `at` and `potato`\'s counter
via `find`. -/
def loopBody : Nat → List Op
  | 0 => []
  | n + 1 => .incAt "apple" :: .incFind "potato" :: loopBody n

/-- The full sequence of mutating statements one call of `func` performs
(src/main.cpp lines 107-113): the two initial `operator[]` writes, then
10000 loop iterations. -/
def funcOps : List Op :=
  .setFirst "apple" "fruit" :: .setFirst "potato" "vegetable" :: loopBody 10000

/-! ## Interleavings

`test_safe_ptr` starts 10 threads each running `func` on a copy of the
global wrapper; the copies share one map and one mutex, so an execution
is an arbitrary interleaving of the threads' atomic statements.
`Sched ts l` says the serialized list `l` is a complete interleaving of
the per-thread statement lists `ts`. -/

/-- `Sched ts l`: `l` is a complete interleaving of the thread-local
statement lists `ts`, obtained by repeatedly letting some thread `i`
execute its next atomic statement. -/
inductive Sched : List (List Op) → List Op → Prop where
  | done : ∀ ts, (∀ t ∈ ts, t = []) → Sched ts []
  | step : ∀ ts (i : Nat) op rest l, ts[i]? = some (op :: rest) →
      Sched (ts.set i rest) l → Sched ts (op :: l)

/-! ## Per-thread progress stages

A thread running `func` is always at one of these stages; `Stage.ops`
gives the statements it still has to execute. -/

/-- Progress of one thread through `funcOps`: `s0` = nothing executed,
`s1` = the `apple` initialization executed, `even n` = both
initializations done and `n` loop iterations remaining at the top of the
loop, `odd n` = additionally the `apple` increment of the current
iteration done, `potato` increment and `n` further iterations remaining. -/
inductive Stage where
  | s0 | s1
  | even (n : Nat)
  | odd (n : Nat)
deriving DecidableEq, Repr

/-- The statements a thread at the given stage still has to execute. -/
def Stage.ops : Stage → List Op
  | .s0 => funcOps
  | .s1 => .setFirst "potato" "vegetable" :: loopBody 10000
  | .even n => loopBody n
  | .odd n => .incFind "potato" :: loopBody n

/-- Remaining `apple` increments of a thread at the given stage. -/
def Stage.remA : Stage → Int
  | .s0 => 10000
  | .s1 => 10000
  | .even n => n
  | .odd n => n

/-- Remaining `potato` increments of a thread at the given stage. -/
def Stage.remP : Stage → Int
  | .s0 => 10000
  | .s1 => 10000
  | .even n => n
  | .odd n => (n : Int) + 1

/-- Total remaining `apple` increments over all threads. -/
def sumA (ss : List Stage) : Int := (ss.map Stage.remA).sum

/-- Total remaining `potato` increments over all threads. -/
def sumP (ss : List Stage) : Int := (ss.map Stage.remP).sum

/-- Invariant tying the shared map to the threads' progress, where `A`
(resp. `P`) is the total number of `apple` (resp. `potato`) increments of
the whole run: a key is present as soon as some thread has passed its
initializing `operator[]` write, its `first` field then holds the
initialized string, and its counter holds the number of increments
already executed. -/
def RunInv (A P : Int) (ss : List Stage) (m : MapState) : Prop :=
  ((∀ s ∈ ss, s = Stage.s0) → m "apple" = none ∧ sumA ss = A) ∧
  ((∃ s ∈ ss, s ≠ Stage.s0) → m "apple" = some ("fruit", A - sumA ss)) ∧
  ((∀ s ∈ ss, s = Stage.s0 ∨ s = Stage.s1) → m "potato" = none ∧ sumP ss = P) ∧
  ((∃ s ∈ ss, ¬(s = Stage.s0 ∨ s = Stage.s1)) →
      m "potato" = some ("vegetable", P - sumP ss))

/-! ### List helper lemmas -/

lemma sum_map_set (f : Stage → Int) :
    ∀ (l : List Stage) (i : Nat) (a b : Stage), l[i]? = some b →
      ((l.set i a).map f).sum = (l.map f).sum - f b + f a := by
  intro l
  induction l with
  | nil => intro i a b h; simp at h
  | cons x xs ih =>
    intro i a b h
    cases i with
    | zero =>
      simp only [List.getElem?_cons_zero, Option.some.injEq] at h
      subst h
      simp only [List.set, List.map_cons, List.sum_cons]
      ring
    | succ j =>
      simp only [List.getElem?_cons_succ] at h
      simp only [List.set, List.map_cons, List.sum_cons, ih j a b h]
      ring

lemma mem_set_or {α : Type} :
    ∀ (l : List α) (i : Nat) (a b : α), l[i]? = some b →
      ∀ x ∈ l, x ∈ l.set i a ∨ x = b := by
  intro l
  induction l with
  | nil => intro i a b h; simp at h
  | cons y ys ih =>
    intro i a b h x hx
    cases i with
    | zero =>
      simp only [List.getElem?_cons_zero, Option.some.injEq] at h
      subst h
      rcases List.mem_cons.1 hx with h1 | h1
      · right; exact h1
      · left; exact List.mem_cons_of_mem _ h1
    | succ j =>
      simp only [List.getElem?_cons_succ] at h
      rcases List.mem_cons.1 hx with h1 | h1
      · left; subst h1; exact List.mem_cons_self _ _
      · rcases ih j a b h x h1 with h2 | h2
        · left; exact List.mem_cons_of_mem _ h2
        · right; exact h2

lemma set_ne_nil {α : Type} {l : List α} (h : l ≠ []) (i : Nat) (a : α) :
    l.set i a ≠ [] := by
  cases l with
  | nil => exact absurd rfl h
  | cons x xs => cases i <;> simp [List.set]

lemma setKey_same (m : MapState) (k : String) (v : String × Int) :
    setKey m k v k = some v := by
  simp [setKey]

lemma setKey_other (m : MapState) (k : String) (v : String × Int) (k' : String)
    (h : k' ≠ k) : setKey m k v k' = m k' := by
  simp [setKey, h]

lemma Stage.ops_eq_nil {s : Stage} (h : s.ops = []) : s = .even 0 := by
  cases s with
  | s0 => exact absurd h (by simp [Stage.ops, funcOps])
  | s1 => exact absurd h (by simp [Stage.ops])
  | even n =>
    cases n with
    | zero => rfl
    | succ m => exact absurd h (by simp [Stage.ops, loopBody])
  | odd n => exact absurd h (by simp [Stage.ops])

lemma sumA_final {ss : List Stage} (h : ∀ s ∈ ss, s = .even 0) : sumA ss = 0 := by
  apply List.sum_eq_zero
  intro x hx
  rcases List.mem_map.1 hx with ⟨s, hs, rfl⟩
  rw [h s hs]
  simp [Stage.remA]

lemma sumP_final {ss : List Stage} (h : ∀ s ∈ ss, s = .even 0) : sumP ss = 0 := by
  apply List.sum_eq_zero
  intro x hx
  rcases List.mem_map.1 hx with ⟨s, hs, rfl⟩
  rw [h s hs]
  simp [Stage.remP]

/-! ### The main interleaving invariant -/

lemma run_sched (A P : Int) {ts : List (List Op)} {l : List Op} (h : Sched ts l) :
    ∀ ss m, ts = ss.map Stage.ops → ss ≠ [] → RunInv A P ss m →
      ∃ mf, run m l = some mf ∧ mf "apple" = some ("fruit", A) ∧
        mf "potato" = some ("vegetable", P) := by
  induction h with
  | done ts hall =>
    intro ss m hts hne hinv
    subst hts
    have hstages : ∀ s ∈ ss, s = Stage.even 0 := fun s hs =>
      Stage.ops_eq_nil (hall _ (List.mem_map_of_mem _ hs))
    obtain ⟨s₀, hs₀⟩ := List.exists_mem_of_ne_nil ss hne
    have h₀ := hstages s₀ hs₀
    subst h₀
    refine ⟨m, rfl, ?_, ?_⟩
    · rw [hinv.2.1 ⟨_, hs₀, by simp⟩, sumA_final hstages, sub_zero]
    · rw [hinv.2.2.2 ⟨_, hs₀, by simp⟩, sumP_final hstages, sub_zero]
  | step ts i op rest l hget hsched ih =>
    intro ss m hts hne hinv
    subst hts
    obtain ⟨hI1, hI2, hI3, hI4⟩ := hinv
    rw [List.getElem?_map] at hget
    obtain ⟨s, hs, hops⟩ : ∃ s, ss[i]? = some s ∧ Stage.ops s = op :: rest := by
      cases hss : ss[i]? with
      | none => rw [hss] at hget; simp at hget
      | some s =>
        rw [hss] at hget
        exact ⟨s, rfl, by simpa using hget⟩
    have hilen : i < ss.length := by
      by_contra hlt
      rw [List.getElem?_eq_none (Nat.le_of_not_lt hlt)] at hs
      exact Option.noConfusion hs
    have hmem : s ∈ ss := List.getElem?_mem hs
    cases s with
    | s0 =>
      simp only [Stage.ops, funcOps, List.cons.injEq] at hops
      obtain ⟨hop, hrest⟩ := hops
      subst hop; subst hrest
      have hc : ((m "apple").getD ("", 0)).2 = A - sumA ss := by
        by_cases hall : ∀ s' ∈ ss, s' = Stage.s0
        · obtain ⟨hnone, hsum⟩ := hI1 hall
          rw [hnone]
          simp [hsum]
        · push_neg at hall
          rw [hI2 hall]
          rfl
      have hrun : run m (Op.setFirst "apple" "fruit" :: l) =
          run (setKey m "apple" ("fruit", A - sumA ss)) l := by
        simp only [run, applyOp, hc]
      have hsA : sumA (ss.set i Stage.s1) = sumA ss := by
        have h' := sum_map_set Stage.remA ss i Stage.s1 Stage.s0 hs
        simp only [sumA] at h' ⊢
        rw [h']
        norm_num [Stage.remA]
      have hsP : sumP (ss.set i Stage.s1) = sumP ss := by
        have h' := sum_map_set Stage.remP ss i Stage.s1 Stage.s0 hs
        simp only [sumP] at h' ⊢
        rw [h']
        norm_num [Stage.remP]
      rw [hrun]
      refine ih (ss.set i Stage.s1) _ (by rw [List.map_set]; rfl) (set_ne_nil hne i _)
        ⟨?_, ?_, ?_, ?_⟩
      · intro hall
        have h1 : (ss.set i Stage.s1)[i]? = some Stage.s1 := List.getElem?_set_self hilen
        exact absurd (hall _ (List.getElem?_mem h1)) (by decide)
      · intro _
        rw [setKey_same, hsA]
      · intro hall
        have hall' : ∀ s' ∈ ss, s' = Stage.s0 ∨ s' = Stage.s1 := by
          intro s' hs'
          rcases mem_set_or ss i Stage.s1 Stage.s0 hs s' hs' with h1 | h1
          · exact hall _ h1
          · exact Or.inl h1
        obtain ⟨hnone, hsum⟩ := hI3 hall'
        refine ⟨?_, ?_⟩
        · rw [setKey_other _ _ _ _ (by decide), hnone]
        · rw [hsP, hsum]
      · rintro ⟨s', hs', hns'⟩
        rcases List.mem_or_eq_of_mem_set hs' with h1 | h1
        · rw [setKey_other _ _ _ _ (by decide), hI4 ⟨s', h1, hns'⟩, hsP]
        · exact (hns' (Or.inr h1)).elim
    | s1 =>
      simp only [Stage.ops, List.cons.injEq] at hops
      obtain ⟨hop, hrest⟩ := hops
      subst hop; subst hrest
      have hc : ((m "potato").getD ("", 0)).2 = P - sumP ss := by
        by_cases hall : ∀ s' ∈ ss, s' = Stage.s0 ∨ s' = Stage.s1
        · obtain ⟨hnone, hsum⟩ := hI3 hall
          rw [hnone]
          simp [hsum]
        · have hex : ∃ s' ∈ ss, ¬(s' = Stage.s0 ∨ s' = Stage.s1) := by
            push_neg at hall
            obtain ⟨x, hx, h0, h1⟩ := hall
            exact ⟨x, hx, by simp [h0, h1]⟩
          rw [hI4 hex]
          rfl
      have hrun : run m (Op.setFirst "potato" "vegetable" :: l) =
          run (setKey m "potato" ("vegetable", P - sumP ss)) l := by
        simp only [run, applyOp, hc]
      have hsA : sumA (ss.set i (Stage.even 10000)) = sumA ss := by
        have h' := sum_map_set Stage.remA ss i (Stage.even 10000) Stage.s1 hs
        simp only [sumA] at h' ⊢
        rw [h']
        norm_num [Stage.remA]
      have hsP : sumP (ss.set i (Stage.even 10000)) = sumP ss := by
        have h' := sum_map_set Stage.remP ss i (Stage.even 10000) Stage.s1 hs
        simp only [sumP] at h' ⊢
        rw [h']
        norm_num [Stage.remP]
      rw [hrun]
      refine ih (ss.set i (Stage.even 10000)) _ (by rw [List.map_set]; rfl) (set_ne_nil hne i _)
        ⟨?_, ?_, ?_, ?_⟩
      · intro hall
        have h1 : (ss.set i (Stage.even 10000))[i]? = some (Stage.even 10000) :=
          List.getElem?_set_self hilen
        exact absurd (hall _ (List.getElem?_mem h1)) (by decide)
      · intro _
        rw [setKey_other _ _ _ _ (by decide), hI2 ⟨Stage.s1, hmem, by decide⟩, hsA]
      · intro hall
        have h1 : (ss.set i (Stage.even 10000))[i]? = some (Stage.even 10000) :=
          List.getElem?_set_self hilen
        exact absurd (hall _ (List.getElem?_mem h1)) (by decide)
      · intro _
        rw [setKey_same, hsP]
    | even n =>
      cases n with
      | zero => exact absurd hops (by simp [Stage.ops, loopBody])
      | succ n =>
        simp only [Stage.ops, loopBody, List.cons.injEq] at hops
        obtain ⟨hop, hrest⟩ := hops
        subst hop; subst hrest
        have happ : m "apple" = some ("fruit", A - sumA ss) :=
          hI2 ⟨_, hmem, by simp⟩
        have hrun : run m (Op.incAt "apple" :: l) =
            run (setKey m "apple" ("fruit", A - sumA ss + 1)) l := by
          simp only [run, applyOp, happ]
        have hsA : sumA (ss.set i (Stage.odd n)) = sumA ss - 1 := by
          have h' := sum_map_set Stage.remA ss i (Stage.odd n) (Stage.even (n + 1)) hs
          simp only [sumA] at h' ⊢
          rw [h']
          simp only [Stage.remA]
          push_cast
          ring
        have hsP : sumP (ss.set i (Stage.odd n)) = sumP ss := by
          have h' := sum_map_set Stage.remP ss i (Stage.odd n) (Stage.even (n + 1)) hs
          simp only [sumP] at h' ⊢
          rw [h']
          simp only [Stage.remP]
          push_cast
          ring
        rw [hrun]
        refine ih (ss.set i (Stage.odd n)) _ (by rw [List.map_set]; rfl) (set_ne_nil hne i _)
          ⟨?_, ?_, ?_, ?_⟩
        · intro hall
          have h1 : (ss.set i (Stage.odd n))[i]? = some (Stage.odd n) :=
            List.getElem?_set_self hilen
          exact absurd (hall _ (List.getElem?_mem h1)) (by simp)
        · intro _
          rw [setKey_same, hsA]
          exact congrArg some (by refine Prod.ext rfl ?_; ring)
        · intro hall
          have h1 : (ss.set i (Stage.odd n))[i]? = some (Stage.odd n) :=
            List.getElem?_set_self hilen
          exact absurd (hall _ (List.getElem?_mem h1)) (by simp)
        · intro _
          rw [setKey_other _ _ _ _ (by decide), hI4 ⟨_, hmem, by simp⟩, hsP]
    | odd n =>
      simp only [Stage.ops, List.cons.injEq] at hops
      obtain ⟨hop, hrest⟩ := hops
      subst hop; subst hrest
      have hpot : m "potato" = some ("vegetable", P - sumP ss) :=
        hI4 ⟨_, hmem, by simp⟩
      have hrun : run m (Op.incFind "potato" :: l) =
          run (setKey m "potato" ("vegetable", P - sumP ss + 1)) l := by
        simp only [run, applyOp, hpot]
      have hsA : sumA (ss.set i (Stage.even n)) = sumA ss := by
        have h' := sum_map_set Stage.remA ss i (Stage.even n) (Stage.odd n) hs
        simp only [sumA] at h' ⊢
        rw [h']
        simp only [Stage.remA]
        ring
      have hsP : sumP (ss.set i (Stage.even n)) = sumP ss - 1 := by
        have h' := sum_map_set Stage.remP ss i (Stage.even n) (Stage.odd n) hs
        simp only [sumP] at h' ⊢
        rw [h']
        simp only [Stage.remP]
        ring
      rw [hrun]
      refine ih (ss.set i (Stage.even n)) _ (by rw [List.map_set]; rfl) (set_ne_nil hne i _)
        ⟨?_, ?_, ?_, ?_⟩
      · intro hall
        have h1 : (ss.set i (Stage.even n))[i]? = some (Stage.even n) :=
          List.getElem?_set_self hilen
        exact absurd (hall _ (List.getElem?_mem h1)) (by simp)
      · intro _
        rw [setKey_other _ _ _ _ (by decide), hI2 ⟨_, hmem, by simp⟩, hsA]
      · intro hall
        have h1 : (ss.set i (Stage.even n))[i]? = some (Stage.even n) :=
          List.getElem?_set_self hilen
        exact absurd (hall _ (List.getElem?_mem h1)) (by simp)
      · intro _
        rw [setKey_same, hsP]
        exact congrArg some (by refine Prod.ext rfl ?_; ring)

/-! ### Claim C1 -/

/-- Claim C1: after the ten threads of `test_safe_ptr` each run `func` —
initializing `apple` to `("fruit", _)` and `potato` to `("vegetable", _)`
and incrementing both counters 10000 times through the wrapper's
accessors — every complete interleaving of the threads' lock-protected
statements succeeds and leaves the shared map with
`apple = ("fruit", 100000)` and `potato = ("vegetable", 100000)` exactly:
the mutations are mutually exclusive and totally ordered (each `Sched`
step is one whole lock-protected statement), so no update is lost and a
final read through a read-only accessor reports 100000 for both keys. -/
theorem safe_map_increments_exact {l : List Op}
    (h : Sched (List.replicate 10 funcOps) l) :
    ∃ mf, run emptyMap l = some mf ∧
      mf "apple" = some ("fruit", 100000) ∧
      mf "potato" = some ("vegetable", 100000) := by
  apply run_sched 100000 100000 h (List.replicate 10 Stage.s0) emptyMap
  · rw [List.map_replicate]
    rfl
  · simp
  · refine ⟨?_, ?_, ?_, ?_⟩
    · intro _
      refine ⟨rfl, by decide⟩
    · rintro ⟨s, hs, hne⟩
      exact absurd (List.eq_of_mem_replicate hs) hne
    · intro _
      refine ⟨rfl, by decide⟩
    · rintro ⟨s, hs, hns⟩
      exact absurd (Or.inl (List.eq_of_mem_replicate hs)) hns

lemma sched_cons_nil {ts : List (List Op)} {l : List Op} (h : Sched ts l) :
    Sched ([] :: ts) l := by
  induction h with
  | done ts hall =>
    refine .done _ ?_
    intro t ht
    rcases List.mem_cons.1 ht with h1 | h1
    · exact h1
    · exact hall t h1
  | step ts i op rest l hget hsched ih =>
    exact .step _ (i + 1) op rest l (by simpa using hget) (by simpa [List.set] using ih)

lemma sched_self_join : ∀ ts : List (List Op), Sched ts ts.flatten := by
  intro ts
  induction ts with
  | nil => exact .done [] (by simp)
  | cons t ts ih =>
    induction t with
    | nil => simpa using sched_cons_nil ih
    | cons op t ih2 =>
      rw [List.flatten_cons, List.cons_append]
      exact .step _ 0 op t _ (by simp) (by simpa using ih2)

/-- Witness for C1 at a concrete complete interleaving: the sequential
schedule that runs the ten threads one after the other. -/
theorem safe_map_increments_exact_witness :
    ∃ mf, run emptyMap (List.replicate 10 funcOps).flatten = some mf ∧
      mf "apple" = some ("fruit", 100000) ∧
      mf "potato" = some ("vegetable", 100000) :=
  safe_map_increments_exact (sched_self_join _)

/-! ## `std::recursive_mutex`, `std::unique_lock` and the accessor types

`execute_around` defaults `mutex_type` to `std::recursive_mutex` and
`safe_ptr` defaults `mutex_t` to `std::recursive_mutex` with
`x_lock_t = s_lock_t = std::unique_lock<mutex_t>`.  `execute_around::proxy`
and `safe_ptr::auto_lock_t` are structurally the same accessor: a
`std::unique_lock` member acquired in the constructor plus a borrowed
`T* const` pointer returned by `operator->`. -/

/-- Model of `std::recursive_mutex`: the owning thread (if any) and the
recursion depth.  A free mutex has no owner and depth 0. -/
structure RecMutex where
  owner : Option Nat
  count : Nat
deriving DecidableEq, Repr

/-- The initial (free) state of a freshly constructed mutex. -/
def RecMutex.free : RecMutex := ⟨none, 0⟩

/-- `lock()` called by thread `t`: succeeds immediately when the mutex is
free, succeeds reentrantly (depth + 1) when `t` already owns it, and
blocks (`none`) while a different thread owns it. -/
def RecMutex.lock (m : RecMutex) (t : Nat) : Option RecMutex :=
  match m.owner with
  | none => some ⟨some t, 1⟩
  | some o => if o = t then some ⟨some t, m.count + 1⟩ else none

/-- `unlock()`: drops one level of the recursion depth, freeing the mutex
when the last level is released. -/
def RecMutex.unlock (m : RecMutex) : RecMutex :=
  if m.count ≤ 1 then ⟨none, 0⟩ else ⟨m.owner, m.count - 1⟩

/-- Model of `std::unique_lock<mutex_type>`: whether this guard currently
owns an acquisition of its mutex. -/
structure UniqueLock where
  owns : Bool
deriving DecidableEq, Repr

/-- `std::unique_lock<mutex_type> lock(_mtx)` — the member initializer of
`execute_around::proxy`, `safe_ptr::auto_lock_t` and
`safe_ptr::auto_lock_obj_t`: blocks until the mutex is acquired and then
owns it; `none` means the constructor is still blocked because another
thread owns the mutex. -/
def UniqueLock.acquire (m : RecMutex) (t : Nat) : Option (UniqueLock × RecMutex) :=
  (m.lock t).map fun m' => (⟨true⟩, m')

/-- The `std::unique_lock` destructor: calls `unlock()` iff the guard
owns the mutex. -/
def UniqueLock.release (l : UniqueLock) (m : RecMutex) : RecMutex :=
  if l.owns then m.unlock else m

/-- `std::unique_lock(std::move(src))`: the target takes over ownership
and the moved-from guard owns nothing.  Result: (target, moved-from). -/
def UniqueLock.moveFrom (src : UniqueLock) : UniqueLock × UniqueLock :=
  (⟨src.owns⟩, ⟨false⟩)

/-- `execute_around::proxy` (and, structurally identical,
`safe_ptr::auto_lock_t`): a `std::unique_lock` on the wrapper's mutex
plus the borrowed pointer `p` to the wrapped value; `α` is the type of
the pointer value, kept opaque. -/
structure proxy (α : Type) where
  lock : UniqueLock
  p : α
deriving DecidableEq, Repr

/-- `proxy(T* const _p, mutex_type &_mtx) : lock(_mtx), p(_p)`: the
constructor blocks until the lock is acquired; there is no constructed
state in which the lock is not yet held. -/
def proxy.construct {α : Type} (pv : α) (m : RecMutex) (t : Nat) :
    Option (proxy α × RecMutex) :=
  (UniqueLock.acquire m t).map fun lm => (⟨lm.1, pv⟩, lm.2)

/-- `proxy::operator->`: returns the borrowed pointer; neither the lock
state nor the mutex is touched. -/
def proxy.deref {α : Type} (px : proxy α) : α × proxy α := (px.p, px)

/-- `~proxy()`: the `std::unique_lock` member's destructor releases the
mutex iff this instance owns it.  The instance is consumed: no operation
on the accessor exists after destruction. -/
def proxy.destroy {α : Type} (px : proxy α) (m : RecMutex) : RecMutex :=
  px.lock.release m

/-- `proxy(proxy &&px) : lock(std::move(px.lock)), p(px.p)`: move
construction transfers lock ownership to the new instance; the
moved-from instance keeps its pointer but owns no lock.
Result: (new instance, moved-from instance). -/
def proxy.move {α : Type} (px : proxy α) : proxy α × proxy α :=
  (⟨(UniqueLock.moveFrom px.lock).1, px.p⟩, ⟨(UniqueLock.moveFrom px.lock).2, px.p⟩)

/-- Repeated `operator->` accesses leave the accessor unchanged; this is
the accessor state after `n` member accesses. -/
def proxy.afterDerefs {α : Type} (px : proxy α) (n : Nat) : proxy α :=
  (fun q => (proxy.deref q).2)^[n] px

lemma proxy.afterDerefs_eq {α : Type} (px : proxy α) (n : Nat) :
    px.afterDerefs n = px := by
  induction n with
  | zero => rfl
  | succ k ihk =>
    rw [proxy.afterDerefs, Function.iterate_succ_apply]
    exact ihk

/-- Claim C2: for an accessor instance (`execute_around::proxy`,
`safe_ptr::auto_lock_t`, `safe_ptr::auto_lock_obj_t`) the only states are
unlocked/locked (the `owns` bit of its `unique_lock`); completion of the
constructor always leaves it locked with the calling thread owning the
mutex (there is no constructed-but-unlocked state, because the `none`
branch of `construct` means the constructor has not completed); member
accesses never change the lock state, so the instance stays locked for
its whole lifetime; and destruction — the only remaining transition, the
instance being consumed by it — releases the acquisition exactly once,
returning the mutex to its pre-construction depth. -/
lemma RecMutex.lock_spec (m : RecMutex) (t : Nat) (mL : RecMutex)
    (hwf : m.owner = none → m.count = 0) (h : m.lock t = some mL) :
    mL.owner = some t ∧ mL.count = m.count + 1 := by
  obtain ⟨mo, mc⟩ := m
  rcases mo with _ | o
  · simp only [RecMutex.lock, Option.some.injEq] at h
    subst h
    refine ⟨rfl, ?_⟩
    show 1 = mc + 1
    have h0 : mc = 0 := hwf rfl
    omega
  · simp only [RecMutex.lock] at h
    by_cases hot : o = t
    · subst hot
      rw [if_pos rfl] at h
      simp only [Option.some.injEq] at h
      subst h
      exact ⟨rfl, rfl⟩
    · rw [if_neg hot] at h
      exact Option.noConfusion h

theorem accessor_lifecycle_locked {α : Type} (pv : α) (m0 : RecMutex) (t : Nat)
    (px : proxy α) (m1 : RecMutex)
    (hwf : m0.owner = none → m0.count = 0)
    (hctor : proxy.construct pv m0 t = some (px, m1)) :
    px.lock.owns = true ∧ m1.owner = some t ∧ m1.count = m0.count + 1 ∧
    (∀ n : Nat, (px.afterDerefs n).lock.owns = true) ∧
    (∀ n : Nat, (proxy.destroy (px.afterDerefs n) m1).count = m0.count) := by
  rw [proxy.construct, UniqueLock.acquire] at hctor
  cases hL : m0.lock t with
  | none =>
    rw [hL] at hctor
    exact Option.noConfusion hctor
  | some mL =>
    rw [hL] at hctor
    simp only [Option.map_some', Option.some.injEq, Prod.mk.injEq] at hctor
    obtain ⟨hpx, hm1⟩ := hctor
    obtain ⟨ho, hc⟩ := RecMutex.lock_spec m0 t mL hwf hL
    subst hm1
    refine ⟨by rw [← hpx], ho, hc, ?_, ?_⟩
    · intro n
      rw [proxy.afterDerefs_eq, ← hpx]
    · intro n
      rw [proxy.afterDerefs_eq, ← hpx]
      show (RecMutex.unlock mL).count = m0.count
      rw [RecMutex.unlock]
      rcases le_or_lt mL.count 1 with h1 | h1
      · rw [if_pos h1]
        show 0 = m0.count
        omega
      · rw [if_neg (by omega)]
        show mL.count - 1 = m0.count
        omega

/-- Witness for C2: thread 0 constructs an accessor on a free mutex. -/
theorem accessor_lifecycle_locked_witness :
    proxy.construct (0 : Nat) RecMutex.free 0 = some (⟨⟨true⟩, 0⟩, ⟨some 0, 1⟩) ∧
    ((⟨⟨true⟩, 0⟩ : proxy Nat).lock.owns = true ∧
      (⟨some 0, 1⟩ : RecMutex).owner = some 0 ∧
      (⟨some 0, 1⟩ : RecMutex).count = RecMutex.free.count + 1 ∧
      (∀ n : Nat, ((⟨⟨true⟩, 0⟩ : proxy Nat).afterDerefs n).lock.owns = true) ∧
      (∀ n : Nat,
        (proxy.destroy ((⟨⟨true⟩, 0⟩ : proxy Nat).afterDerefs n) ⟨some 0, 1⟩).count =
          RecMutex.free.count)) :=
  ⟨rfl, accessor_lifecycle_locked 0 RecMutex.free 0 _ _ (fun _ => rfl) rfl⟩

/-! ### Move construction and matched release (C5) -/

lemma proxy.construct_spec {α : Type} {pv : α} {m0 : RecMutex} {t : Nat}
    {px : proxy α} {m1 : RecMutex}
    (hctor : proxy.construct pv m0 t = some (px, m1)) :
    px = ⟨⟨true⟩, pv⟩ ∧ m0.lock t = some m1 := by
  rw [proxy.construct, UniqueLock.acquire] at hctor
  cases hL : m0.lock t with
  | none =>
    rw [hL] at hctor
    exact Option.noConfusion hctor
  | some mL =>
    rw [hL] at hctor
    simp only [Option.map_some', Option.some.injEq, Prod.mk.injEq] at hctor
    refine ⟨hctor.1.symm, ?_⟩
    rw [← hctor.2]

/-- Destroy a list of accessor instances in the given order: each
instance's destructor releases the mutex iff its `unique_lock` owns it. -/
def destroyAll {α : Type} (pxs : List (proxy α)) (m : RecMutex) : RecMutex :=
  pxs.foldl (fun acc px => proxy.destroy px acc) m

lemma destroyAll_cons {α : Type} (px : proxy α) (pxs : List (proxy α)) (m : RecMutex) :
    destroyAll (px :: pxs) m = destroyAll pxs (proxy.destroy px m) := rfl

lemma destroyAll_eq {α : Type} (pxs : List (proxy α)) :
    ∀ m : RecMutex,
      destroyAll pxs m = RecMutex.unlock^[pxs.countP (fun px => px.lock.owns)] m := by
  induction pxs with
  | nil => intro m; rfl
  | cons px pxs ih =>
    intro m
    rw [destroyAll_cons, ih]
    cases howns : px.lock.owns with
    | false =>
      rw [List.countP_cons_of_neg (fun q : proxy α => q.lock.owns) _ (by simp [howns])]
      have hd : proxy.destroy px m = m := by
        rw [proxy.destroy, UniqueLock.release, howns]
        simp
      rw [hd]
    | true =>
      rw [List.countP_cons_of_pos (fun q : proxy α => q.lock.owns) _ howns]
      have hd : proxy.destroy px m = m.unlock := by
        rw [proxy.destroy, UniqueLock.release, howns]
        simp
      rw [hd, ← Function.iterate_succ_apply]

/-- The `k + 1` accessor instances alive after `k` successive move
constructions from one original instance: head = the destination of the
latest move, then the moved-from shells. -/
def moveChain {α : Type} (px : proxy α) : Nat → List (proxy α)
  | 0 => [px]
  | k + 1 =>
    match moveChain px k with
    | [] => []
    | cur :: rest => (proxy.move cur).1 :: ((proxy.move cur).2 :: rest)

lemma moveChain_spec {α : Type} (px : proxy α) (h : px.lock.owns = true) :
    ∀ k : Nat, ∃ cur rest, moveChain px k = cur :: rest ∧ cur.lock.owns = true ∧
      (∀ q ∈ rest, q.lock.owns = false) := by
  intro k
  induction k with
  | zero => exact ⟨px, [], rfl, h, by simp⟩
  | succ k ih =>
    obtain ⟨cur, rest, hmc, hcur, hrest⟩ := ih
    refine ⟨(proxy.move cur).1, (proxy.move cur).2 :: rest, ?_, ?_, ?_⟩
    · rw [moveChain, hmc]
    · simp only [proxy.move, UniqueLock.moveFrom]
      exact hcur
    · intro q hq
      rcases List.mem_cons.1 hq with rfl | hq2
      · rfl
      · exact hrest q hq2

/-- Claim C5: the accessor types are move-constructible and moving
transfers lock ownership — the destination of `proxy(proxy&&)` owns
exactly what the source owned and the moved-from instance owns nothing,
so its destructor performs no release; consequently, after any number
`k` of successive moves, destroying all `k + 1` instances in any order
releases the single original acquisition exactly once (the mutex ends
exactly one `unlock` below its post-construction state).  Copying is not
modelled because the C++ accessor types have no copy constructor (a
user-declared move constructor suppresses it): the model, like the code,
offers only `construct`, `deref`, `move` and `destroy`. -/
theorem accessor_move_single_release {α : Type} (pv : α) (m0 : RecMutex) (t : Nat)
    (px : proxy α) (m1 : RecMutex) (k : Nat) (order : List (proxy α))
    (hctor : proxy.construct pv m0 t = some (px, m1))
    (hperm : order.Perm (moveChain px k)) :
    (proxy.move px).1.lock.owns = px.lock.owns ∧
    (proxy.move px).2.lock.owns = false ∧
    (∀ m : RecMutex, proxy.destroy (proxy.move px).2 m = m) ∧
    destroyAll order m1 = m1.unlock := by
  obtain ⟨hpx, _⟩ := proxy.construct_spec hctor
  subst hpx
  refine ⟨rfl, rfl, fun m => rfl, ?_⟩
  rw [destroyAll_eq, hperm.countP_eq]
  obtain ⟨cur, rest, hmc, hcur, hrest⟩ := moveChain_spec (⟨⟨true⟩, pv⟩ : proxy α) rfl k
  rw [hmc, List.countP_cons_of_pos (fun q : proxy α => q.lock.owns) _ hcur,
    List.countP_eq_zero.2 (fun q hq => by simp [hrest q hq])]
  simp

/-- Witness for C5: one construction on a free mutex followed by one
move; the two resulting instances are destroyed in their chain order. -/
theorem accessor_move_single_release_witness :
    proxy.construct (0 : Nat) RecMutex.free 0 = some (⟨⟨true⟩, 0⟩, ⟨some 0, 1⟩) ∧
    ((proxy.move (⟨⟨true⟩, 0⟩ : proxy Nat)).1.lock.owns =
        (⟨⟨true⟩, 0⟩ : proxy Nat).lock.owns ∧
      (proxy.move (⟨⟨true⟩, 0⟩ : proxy Nat)).2.lock.owns = false ∧
      (∀ m : RecMutex, proxy.destroy (proxy.move (⟨⟨true⟩, 0⟩ : proxy Nat)).2 m = m) ∧
      destroyAll (moveChain (⟨⟨true⟩, 0⟩ : proxy Nat) 1) ⟨some 0, 1⟩ =
        RecMutex.unlock ⟨some 0, 1⟩) :=
  ⟨rfl, accessor_move_single_release 0 RecMutex.free 0 _ _ 1 _ rfl (List.Perm.refl _)⟩

/-! ### Reentrant nested acquisition (C7) -/

/-- `n` nested accessor constructions by the same thread `t` on the same
wrapper (the scenario of `test_execute_around`, which constructs the two
proxies `tmp1` and `tmp2` in one scope and reads through both): returns
the list of live accessors and the mutex state after all `n`
constructions, or `none` as soon as one construction blocks. -/
def constructN {α : Type} (pv : α) (t : Nat) : Nat → RecMutex → Option (List (proxy α) × RecMutex)
  | 0, m => some ([], m)
  | n + 1, m =>
    (proxy.construct pv m t).bind fun pm =>
      (constructN pv t n pm.2).map fun pr => (pm.1 :: pr.1, pr.2)

lemma constructN_owned {α : Type} (pv : α) (t : Nat) :
    ∀ (n c : Nat),
      constructN pv t n ⟨some t, c + 1⟩ =
        some (List.replicate n ⟨⟨true⟩, pv⟩, ⟨some t, c + 1 + n⟩) := by
  intro n
  induction n with
  | zero => intro c; rfl
  | succ k ih =>
    intro c
    rw [constructN]
    have h1 : proxy.construct pv (⟨some t, c + 1⟩ : RecMutex) t =
        some (⟨⟨true⟩, pv⟩, ⟨some t, c + 1 + 1⟩) := by
      rw [proxy.construct, UniqueLock.acquire]
      simp [RecMutex.lock]
    rw [h1, Option.some_bind, ih (c + 1)]
    have h2 : c + 1 + 1 + k = c + 1 + (k + 1) := by omega
    rw [h2, Option.map_some']
    rfl

lemma unlock_iterate (t : Nat) : ∀ k : Nat,
    RecMutex.unlock^[k + 1] ⟨some t, k + 1⟩ = RecMutex.free := by
  intro k
  induction k with
  | zero =>
    rw [Function.iterate_one]
    rfl
  | succ j ih =>
    rw [Function.iterate_succ_apply]
    have h1 : RecMutex.unlock ⟨some t, j + 1 + 1⟩ = ⟨some t, j + 1⟩ := by
      have hc : ¬ (⟨some t, j + 1 + 1⟩ : RecMutex).count ≤ 1 := by
        show ¬ j + 1 + 1 ≤ 1
        omega
      rw [RecMutex.unlock, if_neg hc]
      rfl
    rw [h1, ih]

/-- Claim C7: with the default `std::recursive_mutex`, a single thread
`t` may construct and hold any number `n + 1` of nested accessors to the
same wrapper simultaneously without self-deadlock: starting from the
free mutex every nested acquisition succeeds (`constructN` returns
`some`, never blocking), every live accessor holds the lock, and
destroying all of them matches each acquisition with exactly one
release, returning the mutex to its free state. -/
theorem recursive_mutex_reentrant_nesting {α : Type} (pv : α) (t n : Nat) :
    ∃ pxs m', constructN pv t (n + 1) RecMutex.free = some (pxs, m') ∧
      pxs.length = n + 1 ∧
      (∀ px ∈ pxs, px.lock.owns = true) ∧
      destroyAll pxs m' = RecMutex.free := by
  refine ⟨List.replicate (n + 1) ⟨⟨true⟩, pv⟩, ⟨some t, n + 1⟩, ?_, by simp, ?_, ?_⟩
  · rw [constructN]
    have h1 : proxy.construct pv RecMutex.free t = some (⟨⟨true⟩, pv⟩, ⟨some t, 1⟩) := rfl
    rw [h1, Option.some_bind]
    have h0 : (⟨some t, 1⟩ : RecMutex) = ⟨some t, 0 + 1⟩ := rfl
    rw [h0, constructN_owned pv t n 0, Option.map_some']
    have h2 : 0 + 1 + n = n + 1 := by omega
    rw [h2]
    rfl
  · intro px hpx
    rw [List.eq_of_mem_replicate hpx]
  · rw [destroyAll_eq]
    have hcount : (List.replicate (n + 1) (⟨⟨true⟩, pv⟩ : proxy α)).countP
        (fun q => q.lock.owns) = n + 1 := by
      rw [List.countP_eq_length.2 (fun a ha => by rw [List.eq_of_mem_replicate ha])]
      exact List.length_replicate _ _
    rw [hcount]
    exact unlock_iterate t n

/-- Witness for C7 (whose only premises are universally quantified data):
two nested accessors in one thread, as in `test_execute_around`. -/
theorem recursive_mutex_reentrant_nesting_witness :
    ∃ pxs m', constructN (0 : Nat) 0 (1 + 1) RecMutex.free = some (pxs, m') ∧
      pxs.length = 1 + 1 ∧
      (∀ px ∈ pxs, px.lock.owns = true) ∧
      destroyAll pxs m' = RecMutex.free :=
  recursive_mutex_reentrant_nesting 0 0 1

/-! ## Shared ownership (`std::shared_ptr` via `make_shared`) and aliasing

Both wrapper classes hold their value and their mutex in `shared_ptr`
members (`safe_ptr`: `ptr`, `mtx_ptr`; `execute_around`: `p`, `mtx`),
and both are copyable through the implicitly generated copy constructor,
which copies the two `shared_ptr` members.  The heap models `make_shared`
allocations by fresh addresses. -/

/-- A heap of reference-counted allocations of values of type `α`: `next`
is the next fresh address, `mem` the allocated cells. -/
structure Heap (α : Type) where
  next : Nat
  mem : Nat → Option α

/-- The empty heap. -/
def Heap.empty (α : Type) : Heap α := ⟨0, fun _ => none⟩

/-- `std::make_shared<α>(v)`: allocate a fresh cell holding `v`, returning
the new address and the extended heap. -/
def Heap.alloc {α : Type} (h : Heap α) (v : α) : Nat × Heap α :=
  (h.next, ⟨h.next + 1, fun i => if i = h.next then some v else h.mem i⟩)

/-- Overwrite the cell at address `a` (a store through a dereferenced
`shared_ptr`). -/
def Heap.write {α : Type} (h : Heap α) (a : Nat) (v : α) : Heap α :=
  ⟨h.next, fun i => if i = a then some v else h.mem i⟩

/-- The allocation state the wrapper models live in: the heap of wrapped
values and the heap of mutexes. -/
structure PtrState (α : Type) where
  hT : Heap α
  hM : Heap RecMutex

/-- The `safe_ptr` handle: its two `shared_ptr` members as heap
addresses — `ptr` (the owned `T`) and `mtx_ptr` (the owned mutex). -/
structure safe_ptr where
  ptr : Nat
  mtx_ptr : Nat
deriving DecidableEq, Repr

/-- `safe_ptr(Args... args) : ptr(std::make_shared<T>(args...)),
mtx_ptr(std::make_shared<mutex_t>())` — `mkT` stands for `T`'s
constructor applied to the forwarded arguments and may fail (throw):
on failure the exception propagates verbatim and no wrapper is created;
on success the value `mkT` built and a fresh free mutex are allocated
and the handle holds their (fresh) addresses. -/
def safe_ptr.construct {α ε A : Type} (mkT : A → Except ε α) (args : A)
    (st : PtrState α) : Except ε (safe_ptr × PtrState α) :=
  match mkT args with
  | .error e => .error e
  | .ok v =>
    let aT := st.hT.alloc v
    let aM := st.hM.alloc RecMutex.free
    .ok (⟨aT.1, aM.1⟩, ⟨aT.2, aM.2⟩)

/-- The implicitly generated copy constructor of `safe_ptr`: copies the
two `shared_ptr` members, so the copy holds the same two addresses (this
is how `test_safe_ptr` passes the global wrapper to its ten threads). -/
def safe_ptr.copy (s : safe_ptr) : safe_ptr := s

/-- Store `v` in the wrapped value through an accessor obtained from
handle `s` (a write through `auto_lock_t::operator->`): the store goes
to the address in the handle's `ptr` member. -/
def safe_ptr.writeThrough {α : Type} (s : safe_ptr) (st : PtrState α) (v : α) :
    PtrState α :=
  ⟨st.hT.write s.ptr v, st.hM⟩

/-- Read the wrapped value through an accessor obtained from handle `s`. -/
def safe_ptr.readThrough {α : Type} (s : safe_ptr) (st : PtrState α) : Option α :=
  st.hT.mem s.ptr

/-- Counterexample to claim C3 as stated: `safe_ptr` handles are *not*
pairwise disjoint — a handle produced by the (implicit) copy constructor
shares both the value address and the mutex address with its source, and
a mutation through the copy is observable through the original handle.
Concretely: construct a wrapper around the value `0`, copy the handle,
write `7` through the copy; a read through the original then yields `7`,
not its previous value `0`. -/
theorem safe_ptr_copy_shares_counterexample :
    ∃ s1 st1, safe_ptr.construct (fun v : Int => (Except.ok v : Except Unit Int)) 0
        ⟨Heap.empty Int, Heap.empty RecMutex⟩ = .ok (s1, st1) ∧
      (safe_ptr.copy s1).ptr = s1.ptr ∧
      (safe_ptr.copy s1).mtx_ptr = s1.mtx_ptr ∧
      safe_ptr.readThrough s1 st1 = some 0 ∧
      safe_ptr.readThrough s1 (safe_ptr.writeThrough (safe_ptr.copy s1) st1 7) = some 7 :=
  ⟨⟨0, 0⟩, _, rfl, rfl, rfl, rfl, rfl⟩

/-- Claim C3 (amended): each `safe_ptr` *constructor call* yields a
handle owning a freshly allocated value and a freshly allocated mutex,
so two handles produced by two separate constructor calls never share
either, and a mutation through one is never observable through the
other; a handle produced by *copying*, however, shares both members
with its source (its `shared_ptr` members are copied), and mutations
through the copy are observable through the original. -/
theorem safe_ptr_fresh_and_copy_aliases {α ε A : Type}
    (mkT : A → Except ε α) (a1 a2 : A) (st0 st1 st2 : PtrState α)
    (s1 s2 : safe_ptr)
    (h1 : safe_ptr.construct mkT a1 st0 = .ok (s1, st1))
    (h2 : safe_ptr.construct mkT a2 st1 = .ok (s2, st2)) :
    s1.ptr ≠ s2.ptr ∧ s1.mtx_ptr ≠ s2.mtx_ptr ∧
    (∀ v : α, safe_ptr.readThrough s1 (safe_ptr.writeThrough s2 st2 v) =
        safe_ptr.readThrough s1 st2) ∧
    (safe_ptr.copy s1).ptr = s1.ptr ∧ (safe_ptr.copy s1).mtx_ptr = s1.mtx_ptr ∧
    (∀ v : α, safe_ptr.readThrough s1
        (safe_ptr.writeThrough (safe_ptr.copy s1) st2 v) = some v) := by
  rw [safe_ptr.construct] at h1 h2
  cases hk1 : mkT a1 with
  | error e => rw [hk1] at h1; exact Except.noConfusion h1
  | ok v1 =>
    rw [hk1] at h1
    cases hk2 : mkT a2 with
    | error e => rw [hk2] at h2; exact Except.noConfusion h2
    | ok v2 =>
      rw [hk2] at h2
      simp only [Except.ok.injEq, Prod.mk.injEq] at h1 h2
      obtain ⟨hs1, hst1⟩ := h1
      obtain ⟨hs2, hst2⟩ := h2
      subst hs1
      subst hs2
      subst hst1
      have hne1 : st0.hT.next ≠ st0.hT.next + 1 := by omega
      refine ⟨?_, ?_, ?_, rfl, rfl, ?_⟩
      · show st0.hT.next ≠ (st0.hT.alloc v1).2.next
        simp [Heap.alloc]
      · show st0.hM.next ≠ (st0.hM.alloc RecMutex.free).2.next
        simp [Heap.alloc]
      · intro v
        show (st2.hT.write _ v).mem st0.hT.next = st2.hT.mem st0.hT.next
        simp only [Heap.write, Heap.alloc]
        rw [if_neg (by simp [Heap.alloc])]
      · intro v
        show (st2.hT.write st0.hT.next v).mem st0.hT.next = some v
        simp [Heap.write]

/-- Witness for C3's amended theorem: two wrappers around the values `0`
and `1`, constructed one after the other from the empty allocation
state. -/
theorem safe_ptr_fresh_and_copy_aliases_witness :
    safe_ptr.construct (fun v : Int => (Except.ok v : Except Unit Int)) 0
        ⟨Heap.empty Int, Heap.empty RecMutex⟩ =
      .ok (⟨0, 0⟩, ⟨(Heap.empty Int).alloc 0 |>.2, (Heap.empty RecMutex).alloc RecMutex.free |>.2⟩) ∧
    safe_ptr.construct (fun v : Int => (Except.ok v : Except Unit Int)) 1
        ⟨(Heap.empty Int).alloc 0 |>.2, (Heap.empty RecMutex).alloc RecMutex.free |>.2⟩ =
      .ok (⟨1, 1⟩, ⟨((Heap.empty Int).alloc 0 |>.2).alloc 1 |>.2,
        (((Heap.empty RecMutex).alloc RecMutex.free |>.2).alloc RecMutex.free |>.2)⟩) ∧
    ((⟨0, 0⟩ : safe_ptr).ptr ≠ (⟨1, 1⟩ : safe_ptr).ptr ∧
      (⟨0, 0⟩ : safe_ptr).mtx_ptr ≠ (⟨1, 1⟩ : safe_ptr).mtx_ptr ∧
      (∀ v : Int, safe_ptr.readThrough ⟨0, 0⟩
          (safe_ptr.writeThrough ⟨1, 1⟩ ⟨((Heap.empty Int).alloc 0 |>.2).alloc 1 |>.2,
            (((Heap.empty RecMutex).alloc RecMutex.free |>.2).alloc RecMutex.free |>.2)⟩ v) =
          safe_ptr.readThrough ⟨0, 0⟩ ⟨((Heap.empty Int).alloc 0 |>.2).alloc 1 |>.2,
            (((Heap.empty RecMutex).alloc RecMutex.free |>.2).alloc RecMutex.free |>.2)⟩) ∧
      (safe_ptr.copy ⟨0, 0⟩).ptr = (⟨0, 0⟩ : safe_ptr).ptr ∧
      (safe_ptr.copy ⟨0, 0⟩).mtx_ptr = (⟨0, 0⟩ : safe_ptr).mtx_ptr ∧
      (∀ v : Int, safe_ptr.readThrough ⟨0, 0⟩
          (safe_ptr.writeThrough (safe_ptr.copy ⟨0, 0⟩) ⟨((Heap.empty Int).alloc 0 |>.2).alloc 1 |>.2,
            (((Heap.empty RecMutex).alloc RecMutex.free |>.2).alloc RecMutex.free |>.2)⟩ v) = some v)) :=
  ⟨rfl, rfl,
    safe_ptr_fresh_and_copy_aliases (fun v : Int => (Except.ok v : Except Unit Int)) 0 1
      ⟨Heap.empty Int, Heap.empty RecMutex⟩
      ⟨(Heap.empty Int).alloc 0 |>.2, (Heap.empty RecMutex).alloc RecMutex.free |>.2⟩
      ⟨((Heap.empty Int).alloc 0 |>.2).alloc 1 |>.2,
        (((Heap.empty RecMutex).alloc RecMutex.free |>.2).alloc RecMutex.free |>.2)⟩
      ⟨0, 0⟩ ⟨1, 1⟩ rfl rfl⟩

/-! ### The execute-around handle (C4, C9) -/

/-- The `execute_around` handle: its two `shared_ptr` members as heap
addresses — `mtx` (the shared mutex) and `p` (the shared value). -/
structure execute_around where
  mtx : Nat
  p : Nat
deriving DecidableEq, Repr

/-- `execute_around(Args... args) : mtx(std::make_shared<mutex_type>()),
p(std::make_shared<T>(args...))`: like `safe_ptr`'s constructor, `mkT`
stands for `T`'s constructor on the forwarded arguments; a failure
propagates verbatim and no handle is created. -/
def execute_around.construct {α ε A : Type} (mkT : A → Except ε α) (args : A)
    (st : PtrState α) : Except ε (execute_around × PtrState α) :=
  match mkT args with
  | .error e => .error e
  | .ok v =>
    let aM := st.hM.alloc RecMutex.free
    let aT := st.hT.alloc v
    .ok (⟨aM.1, aT.1⟩, ⟨aT.2, aM.2⟩)

/-- The implicitly generated copy constructor of `execute_around`:
copies the two `shared_ptr` members (a reference-count increment), so
the copy holds the same mutex address and the same value address; no
value is copied and nothing is allocated. -/
def execute_around.copy (e : execute_around) : execute_around := e

/-- Store `v` in the wrapped value through a `proxy` obtained from
handle `e` (the proxy is constructed on `e.p.get()` and `*e.mtx`, holds
the lock, and its `operator->` exposes the pointee for mutation). -/
def execute_around.writeThrough {α : Type} (e : execute_around) (st : PtrState α)
    (v : α) : PtrState α :=
  ⟨st.hT.write e.p v, st.hM⟩

/-- Read the wrapped value through a `proxy` obtained from handle `e`. -/
def execute_around.readThrough {α : Type} (e : execute_around) (st : PtrState α) :
    Option α :=
  st.hT.mem e.p

/-- Claim C4: a handle produced by copying an `execute_around` handle
refers to the same underlying value address and the same mutex address;
copying allocates nothing (it does not copy the value), and a mutation
performed through an accessor obtained from the copy is visible through
an accessor subsequently obtained from the original handle (and
symmetrically, since the copy is the same pair of addresses). -/
theorem execute_around_copy_aliases {α : Type} (e : execute_around)
    (st : PtrState α) (v : α) :
    (execute_around.copy e).p = e.p ∧ (execute_around.copy e).mtx = e.mtx ∧
    (execute_around.writeThrough (execute_around.copy e) st v).hT.next = st.hT.next ∧
    execute_around.readThrough e
      (execute_around.writeThrough (execute_around.copy e) st v) = some v ∧
    execute_around.readThrough (execute_around.copy e)
      (execute_around.writeThrough e st v) = some v := by
  refine ⟨rfl, rfl, rfl, ?_, ?_⟩ <;>
    simp [execute_around.copy, execute_around.readThrough,
      execute_around.writeThrough, Heap.write]

/-- Claim C9: wrapper construction forwards its arguments to `T`'s
constructor to build the owned value and creates a fresh free mutex;
it fails exactly when `T`'s constructor fails, in which case the same
failure propagates and no wrapper is created (the constructor returns
the error, not a handle) — and this holds for both `safe_ptr` and
`execute_around`.  On success the handle's value cell holds exactly the
value `T`'s constructor produced and its mutex cell holds a fresh free
mutex at a fresh address. -/
theorem safe_ptr_ctor_propagates_failure {α ε A : Type}
    (mkT : A → Except ε α) (args : A) (st : PtrState α) :
    (∀ e : ε, mkT args = .error e →
      safe_ptr.construct mkT args st = .error e ∧
      execute_around.construct mkT args st = .error e) ∧
    (∀ v : α, mkT args = .ok v →
      (∃ s st', safe_ptr.construct mkT args st = .ok (s, st') ∧
        st'.hT.mem s.ptr = some v ∧
        st'.hM.mem s.mtx_ptr = some RecMutex.free ∧
        s.ptr = st.hT.next ∧ s.mtx_ptr = st.hM.next ∧
        st'.hT.next = st.hT.next + 1 ∧ st'.hM.next = st.hM.next + 1) ∧
      (∃ ea st', execute_around.construct mkT args st = .ok (ea, st') ∧
        st'.hT.mem ea.p = some v ∧
        st'.hM.mem ea.mtx = some RecMutex.free)) := by
  constructor
  · intro e he
    rw [safe_ptr.construct, execute_around.construct, he]
    exact ⟨rfl, rfl⟩
  · intro v hv
    constructor
    · refine ⟨⟨st.hT.next, st.hM.next⟩,
        ⟨(st.hT.alloc v).2, (st.hM.alloc RecMutex.free).2⟩, ?_, ?_, ?_, rfl, rfl, rfl, rfl⟩
      · rw [safe_ptr.construct, hv]
        rfl
      · simp [Heap.alloc]
      · simp [Heap.alloc]
    · refine ⟨⟨st.hM.next, st.hT.next⟩,
        ⟨(st.hT.alloc v).2, (st.hM.alloc RecMutex.free).2⟩, ?_, ?_, ?_⟩
      · rw [execute_around.construct, hv]
        rfl
      · simp [Heap.alloc]
      · simp [Heap.alloc]

/-- Witness for C9 at a concrete failing and a concrete succeeding
constructor: `mkT` fails on `0` with error `37` and succeeds on `1`
(building the value `2`); both hypotheses hold by computation. -/
theorem safe_ptr_ctor_propagates_failure_witness :
    safe_ptr.construct (fun a : Nat => if a = 0 then (Except.error 37 : Except Nat Nat)
        else .ok (a + 1)) 0 ⟨Heap.empty Nat, Heap.empty RecMutex⟩ = .error 37 ∧
    ∃ s st', safe_ptr.construct (fun a : Nat => if a = 0 then (Except.error 37 : Except Nat Nat)
        else .ok (a + 1)) 1 ⟨Heap.empty Nat, Heap.empty RecMutex⟩ = .ok (s, st') ∧
      st'.hT.mem s.ptr = some 2 := by
  constructor
  · exact ((safe_ptr_ctor_propagates_failure
      (fun a : Nat => if a = 0 then (Except.error 37 : Except Nat Nat) else .ok (a + 1)) 0
      ⟨Heap.empty Nat, Heap.empty RecMutex⟩).1 37 rfl).1
  · obtain ⟨s, st', hc, hm, _⟩ :=
      ((safe_ptr_ctor_propagates_failure
        (fun a : Nat => if a = 0 then (Except.error 37 : Except Nat Nat) else .ok (a + 1)) 1
        ⟨Heap.empty Nat, Heap.empty RecMutex⟩).2 2 rfl).1
    exact ⟨s, st', hc, hm⟩

/-! ### The shared (const) access path (C6) -/

/-- The lock types a `safe_ptr` instantiation can choose for its
`x_lock_t` / `s_lock_t` template parameters: the default
`std::unique_lock<mutex_t>` (exclusive), or a hypothetical shared lock
type that the code never instantiates. -/
inductive LockKind where
  | uniqueLock
  | sharedLock
deriving DecidableEq, Repr

/-- The lock template parameters of
`safe_ptr<T, mutex_t, x_lock_t, s_lock_t>`; the declaration defaults
both `x_lock_t` and `s_lock_t` to `std::unique_lock<mutex_t>`. -/
structure SafePtrParams where
  x_lock_t : LockKind := .uniqueLock
  s_lock_t : LockKind := .uniqueLock
deriving DecidableEq, Repr

/-- The default instantiation `safe_ptr<T>`, the one used by
`safe_map_strings_global`. -/
def safe_ptr_default : SafePtrParams := {}

/-- The acquisition an accessor with the given lock kind performs on
construction: `std::unique_lock` calls the exclusive reentrant `lock()`.
`std::recursive_mutex` has no shared mode, so a shared lock kind is not
instantiable with it (`none`); the code instantiates only `uniqueLock`. -/
def LockKind.acquireOn : LockKind → RecMutex → Nat → Option RecMutex
  | .uniqueLock, m, t => m.lock t
  | .sharedLock, _, _ => none

/-- The non-const `safe_ptr::operator->` / `operator*` path: it
constructs an accessor of kind `x_lock_t` on the handle's own mutex
(`*mtx_ptr`). -/
def safe_ptr.accessPlan (P : SafePtrParams) (s : safe_ptr) : LockKind × Nat :=
  (P.x_lock_t, s.mtx_ptr)

/-- The const `safe_ptr::operator->` / `operator*` path (`accessConst`,
chosen when the handle is itself const, e.g. `readonly_safe_map_string`
in `func`): it constructs an accessor of kind `s_lock_t` on the very
same mutex (`*mtx_ptr`). -/
def safe_ptr.accessConstPlan (P : SafePtrParams) (s : safe_ptr) : LockKind × Nat :=
  (P.s_lock_t, s.mtx_ptr)

/-- Claim C6: with the default template parameters the shared (const)
access path falls back to the same exclusive lock as the exclusive path:
the const `operator->` / `operator*` acquire the identical mutex of the
same handle with the identical lock type (`std::unique_lock<mutex_t>`),
its acquisition is the exclusive reentrant `lock()`, and therefore a
shared access by thread `t` excludes every other thread `t'` exactly as
an exclusive access does (both block while `t'` holds the mutex). -/
theorem accessConst_same_exclusive_lock (s : safe_ptr) (t t' c : Nat)
    (hne : t' ≠ t) :
    safe_ptr.accessConstPlan safe_ptr_default s = safe_ptr.accessPlan safe_ptr_default s ∧
    (safe_ptr.accessConstPlan safe_ptr_default s).1 = LockKind.uniqueLock ∧
    (safe_ptr.accessConstPlan safe_ptr_default s).2 = s.mtx_ptr ∧
    (∀ m : RecMutex,
      LockKind.acquireOn (safe_ptr.accessConstPlan safe_ptr_default s).1 m t =
        LockKind.acquireOn (safe_ptr.accessPlan safe_ptr_default s).1 m t ∧
      LockKind.acquireOn (safe_ptr.accessConstPlan safe_ptr_default s).1 m t =
        RecMutex.lock m t) ∧
    LockKind.acquireOn (safe_ptr.accessConstPlan safe_ptr_default s).1 ⟨some t', c⟩ t =
      none := by
  refine ⟨rfl, rfl, rfl, fun m => ⟨rfl, rfl⟩, ?_⟩
  show RecMutex.lock ⟨some t', c⟩ t = none
  rw [RecMutex.lock]
  exact if_neg hne

/-- Witness for C6: a concrete handle, thread 0 acquiring while thread 1
holds the mutex. -/
theorem accessConst_same_exclusive_lock_witness :
    (1 : Nat) ≠ 0 ∧
    (safe_ptr.accessConstPlan safe_ptr_default ⟨0, 0⟩ =
        safe_ptr.accessPlan safe_ptr_default ⟨0, 0⟩ ∧
      (safe_ptr.accessConstPlan safe_ptr_default ⟨0, 0⟩).1 = LockKind.uniqueLock ∧
      (safe_ptr.accessConstPlan safe_ptr_default ⟨0, 0⟩).2 = (⟨0, 0⟩ : safe_ptr).mtx_ptr ∧
      (∀ m : RecMutex,
        LockKind.acquireOn (safe_ptr.accessConstPlan safe_ptr_default ⟨0, 0⟩).1 m 0 =
          LockKind.acquireOn (safe_ptr.accessPlan safe_ptr_default ⟨0, 0⟩).1 m 0 ∧
        LockKind.acquireOn (safe_ptr.accessConstPlan safe_ptr_default ⟨0, 0⟩).1 m 0 =
          RecMutex.lock m 0) ∧
      LockKind.acquireOn (safe_ptr.accessConstPlan safe_ptr_default ⟨0, 0⟩).1
        ⟨some 1, 1⟩ 0 = none) :=
  ⟨by decide, accessConst_same_exclusive_lock ⟨0, 0⟩ 0 1 1 (by decide)⟩

/-! ### The indexing accessor `auto_lock_obj_t` (C8) -/

/-- `std::map::operator[]` on the wrapped map: returns the element at
`k`, value-initializing and inserting `("", 0)` first when the key is
absent; result = (the element, the possibly-extended map). -/
def mapIndex (m : MapState) (k : String) : (String × Int) × MapState :=
  match m k with
  | some v => (v, m)
  | none => (("", 0), setKey m k ("", 0))

/-- `safe_ptr::auto_lock_obj_t`: the scoped accessor returned by
`safe_ptr::operator*` — a `unique_lock` on the wrapper's mutex plus the
borrowed pointer to the wrapped container (`ptr` stands for the pointee,
here the wrapped map). -/
structure auto_lock_obj_t where
  lock : UniqueLock
  ptr : MapState

/-- `safe_ptr::operator*`: constructs
`auto_lock_obj_t<x_lock_t>(ptr.get(), *mtx_ptr)` — blocks until the
wrapper's mutex is acquired, then hands out the scoped accessor (`none`
while blocked). -/
def safe_ptr.star (mapv : MapState) (m : RecMutex) (t : Nat) :
    Option (auto_lock_obj_t × RecMutex) :=
  (UniqueLock.acquire m t).map fun lm => (⟨lm.1, mapv⟩, lm.2)

/-- `auto_lock_obj_t::operator[](arg) { return (*ptr)[arg]; }`: forwards
the lookup directly to the wrapped container's own `operator[]`.  The
result is the element (never a reference to the container itself), and
the lock member is untouched. -/
def auto_lock_obj_t.index (a : auto_lock_obj_t) (k : String) :
    (String × Int) × auto_lock_obj_t :=
  ((mapIndex a.ptr k).1, ⟨a.lock, (mapIndex a.ptr k).2⟩)

/-- Claim C8: for the map-valued wrapper, `safe_ptr::operator*` acquires
the lock (blocking until acquired, its depth raised by one for the
accessor's whole lifetime) and returns a scoped accessor wrapping
exactly the container, whose `operator[]` forwards the lookup directly
to the container's own `operator[]`: it yields the very element the
container would yield and applies the container's own insertion effect,
while the lock state is untouched by indexing — and the accessor exposes
only elements, never the raw container. -/
theorem auto_lock_obj_forwards_index (mapv : MapState) (m0 : RecMutex) (t : Nat)
    (a : auto_lock_obj_t) (m1 : RecMutex) (k : String)
    (hwf : m0.owner = none → m0.count = 0)
    (hstar : safe_ptr.star mapv m0 t = some (a, m1)) :
    a.lock.owns = true ∧ m1.owner = some t ∧ m1.count = m0.count + 1 ∧
    a.ptr = mapv ∧
    (a.index k).1 = (mapIndex mapv k).1 ∧
    (a.index k).2.ptr = (mapIndex mapv k).2 ∧
    (a.index k).2.lock = a.lock := by
  rw [safe_ptr.star, UniqueLock.acquire] at hstar
  cases hL : m0.lock t with
  | none =>
    rw [hL] at hstar
    exact Option.noConfusion hstar
  | some mL =>
    rw [hL] at hstar
    simp only [Option.map_some', Option.some.injEq, Prod.mk.injEq] at hstar
    obtain ⟨ha, hm1⟩ := hstar
    obtain ⟨ho, hc⟩ := RecMutex.lock_spec m0 t mL hwf hL
    subst hm1
    subst ha
    exact ⟨rfl, ho, hc, rfl, rfl, rfl, rfl⟩

/-- Witness for C8: thread 0 obtains the indexing accessor for the empty
map on a free mutex and looks up `"apple"`. -/
theorem auto_lock_obj_forwards_index_witness :
    safe_ptr.star emptyMap RecMutex.free 0 = some (⟨⟨true⟩, emptyMap⟩, ⟨some 0, 1⟩) ∧
    ((⟨⟨true⟩, emptyMap⟩ : auto_lock_obj_t).lock.owns = true ∧
      (⟨some 0, 1⟩ : RecMutex).owner = some 0 ∧
      (⟨some 0, 1⟩ : RecMutex).count = RecMutex.free.count + 1 ∧
      (⟨⟨true⟩, emptyMap⟩ : auto_lock_obj_t).ptr = emptyMap ∧
      ((⟨⟨true⟩, emptyMap⟩ : auto_lock_obj_t).index "apple").1 =
        (mapIndex emptyMap "apple").1 ∧
      ((⟨⟨true⟩, emptyMap⟩ : auto_lock_obj_t).index "apple").2.ptr =
        (mapIndex emptyMap "apple").2 ∧
      ((⟨⟨true⟩, emptyMap⟩ : auto_lock_obj_t).index "apple").2.lock =
        (⟨⟨true⟩, emptyMap⟩ : auto_lock_obj_t).lock) :=
  ⟨rfl, auto_lock_obj_forwards_index emptyMap RecMutex.free 0 _ _ "apple"
    (fun _ => rfl) rfl⟩

/-! ### Read-only access through const handles (C10) -/

/-- The operations C++ permits on the `const T*` handed out by the const
`operator->` overloads (`execute_around::proxy::operator-> const`,
`auto_lock_t::operator-> const`, reached through a const wrapper handle
such as `readonly_safe_map_string`): only the `const`-qualified member
functions of the wrapped `std::map` are callable — the lookups `at` and
`find` (the mutating `operator[]` and the non-const `at` are not
callable through a pointer to const). -/
inductive ConstMapOp where
  | atKey (k : String)
  | findKey (k : String)
deriving DecidableEq, Repr

/-- Execute one const-path operation: returns the looked-up element —
`none` models `at` throwing / `find` returning `end()` for an absent
key — together with the container, which a const member function leaves
untouched. -/
def applyConstOp (m : MapState) : ConstMapOp → Option (String × Int) × MapState
  | .atKey k => (m k, m)
  | .findKey k => (m k, m)

/-- Run a sequence of const-path reads, collecting the results and
threading the container state. -/
def runConst (m : MapState) : List ConstMapOp → List (Option (String × Int)) × MapState
  | [] => ([], m)
  | op :: l =>
    ((applyConstOp m op).1 :: (runConst (applyConstOp m op).2 l).1,
      (runConst (applyConstOp m op).2 l).2)

/-- Claim C10: access through a const wrapper handle is read-only — the
const accessor overloads hand out a pointer to const, through which only
the reads modelled by `ConstMapOp` are possible, so any sequence of
accesses made exclusively through const handles leaves the wrapped value
unchanged, and every read in the sequence sees the original value. -/
theorem const_access_read_only (m : MapState) (ops : List ConstMapOp) :
    (runConst m ops).2 = m ∧
    (runConst m ops).1 = ops.map (fun op => (applyConstOp m op).1) := by
  induction ops with
  | nil => exact ⟨rfl, rfl⟩
  | cons op l ih =>
    have h2 : (applyConstOp m op).2 = m := by cases op <;> rfl
    rw [runConst, h2]
    exact ⟨ih.1, congrArg (List.cons (applyConstOp m op).1) ih.2⟩
